import Mathlib

/-!
Verification of `src/envs/quadrotors/quad_multi_model.py`.

The file defines two observation encoders for a multi-drone RL policy
(`QuadMultiMeanEncoder`, `QuadMultiHistogramEncoder`) and a registration
helper `register_models`.

Embedding conventions:
* tensor values are rationals (`ℚ`); a 2-D tensor of shape (B, w) is a
  `List (List ℚ)` of B rows, each of length w;
* `torch.reshape(-1, d)` / `torch.reshape(B, -1, H)` work on the flattened
  element buffer, exactly as in torch; a shape error is `Option.none`;
* `torch.mean(t, dim=1)` on a tensor with 0 entries along dim 1 produces
  NaN values in torch; the embedding models this degenerate outcome as
  `none` as well, so `none` covers both the error and the NaN branch;
* `nn.Linear(i, o)` is a weight matrix (o rows of length i) plus a bias
  vector (length o); the framework's random parameter initialisation is
  modelled by an uninterpreted function from (layer index, in-dim, out-dim)
  to the layer's parameters;
* the nonlinearity selected by `nonlinearity(cfg)` is an uninterpreted
  elementwise function `ℚ → ℚ` stored in the config.
-/

/-- Dot product of two vectors (zip-truncating, as lengths always agree
at use sites). -/
def dot (a b : List ℚ) : ℚ := (List.zipWith (· * ·) a b).sum

/-- Pointwise sum of two vectors. -/
def vecAdd (a b : List ℚ) : List ℚ := List.zipWith (· + ·) a b

/-- Parameters of one `nn.Linear` layer: `weight` has one row per output
coordinate, `bias` one entry per output coordinate. -/
structure Linear where
  weight : List (List ℚ)
  bias : List ℚ
  deriving DecidableEq

/-- Application of an `nn.Linear` layer to one input vector: each output
coordinate is the dot product of the matching weight row with the input,
plus the matching bias entry. -/
def Linear.apply (l : Linear) (x : List ℚ) : List ℚ :=
  (l.weight.zip l.bias).map (fun wb => dot wb.1 x + wb.2)

/-- Split a flat buffer into consecutive chunks of `d` elements
(row-major, as a torch reshape does). `chunk 0` only occurs behind guards
that rule it out. -/
def chunk (d : ℕ) (l : List α) : List (List α) :=
  match d, l with
  | _, [] => []
  | 0, _ :: _ => []
  | e + 1, x :: xs => (x :: xs).take (e + 1) :: chunk (e + 1) ((x :: xs).drop (e + 1))
termination_by l.length
decreasing_by simp [List.length_drop]; omega

/-- `tensor.reshape(-1, d)`: reinterpret the flattened buffer as rows of
length `d`; fails unless `d` is positive and divides the element count. -/
def reshapeNeg1 (d : ℕ) (t : List (List ℚ)) : Option (List (List ℚ)) :=
  let flat := t.flatten
  if d ≠ 0 ∧ d ∣ flat.length then some (chunk d flat) else none

/-- `tensor.reshape(B, -1, H)`: reinterpret the flattened buffer as `B`
groups of `n` rows of length `H`, where `n` is inferred; fails unless
`B * H` is positive and divides the element count. When `n = 0` the result
is `B` empty groups (torch shape `(B, 0, H)`). -/
def reshape3 (B H : ℕ) (t : List (List ℚ)) : Option (List (List (List ℚ))) :=
  let flat := t.flatten
  if B * H ≠ 0 ∧ B * H ∣ flat.length then
    let n := flat.length / (B * H)
    if n = 0 then some (List.replicate B [])
    else some (chunk n (chunk H flat))
  else none

/-- Mean of a list of vectors, each of length `H` (sum divided by count). -/
def meanPool (H : ℕ) (rows : List (List ℚ)) : List ℚ :=
  (rows.foldr vecAdd (List.replicate H 0)).map (· / (rows.length : ℚ))

/-- `torch.mean(t, dim=1)` on a (B, n, H) tensor: the per-group mean of the
`n` rows. A group with 0 rows yields NaN in torch, modelled as `none`. -/
def meanDim1 (H : ℕ) (groups : List (List (List ℚ))) : Option (List (List ℚ)) :=
  if ∀ g ∈ groups, g ≠ [] then some (groups.map (meanPool H)) else none

/-- `torch.cat((a, b), dim=1)`: rowwise concatenation. -/
def catDim1 (a b : List (List ℚ)) : List (List ℚ) := List.zipWith (· ++ ·) a b

/-- The configuration object: only `hidden_size` and the selected
nonlinearity are consumed by this file. -/
structure Cfg where
  hidden_size : ℕ
  nonlin : ℚ → ℚ

/-- Two fully-connected layers with a nonlinearity after each
(the `self_encoder` `nn.Sequential` of both encoder classes). -/
def selfEncode (σ : ℚ → ℚ) (l1 l2 : Linear) (x : List ℚ) : List ℚ :=
  (l2.apply ((l1.apply x).map σ)).map σ

/-- One fully-connected layer followed by a nonlinearity (the
`neighbor_encoder` / `histogram_encoder` `nn.Sequential`). -/
def fcEncode (σ : ℚ → ℚ) (l : Linear) (x : List ℚ) : List ℚ :=
  (l.apply x).map σ

/-- `calc_num_elements(module, shape)` from `algorithms/utils/pytorch_utils`
(repository code outside `src/`): runs the module on a zero dummy input of
the given shape and counts the elements of the output. Modelled here as the
output length of the embedded module on a zero vector. -/
def calc_num_elements (f : List ℚ → List ℚ) (dim : ℕ) : ℕ :=
  (f (List.replicate dim 0)).length

/-- State of a constructed `QuadMultiMeanEncoder`: the fields set by
`__init__`. -/
structure QuadMultiMeanEncoderS where
  self_obs_dim : ℕ
  neighbor_obs_dim : ℕ
  neighbor_hidden_size : ℕ
  σ : ℚ → ℚ
  self_l1 : Linear
  self_l2 : Linear
  neighbor_l : Linear
  feed_forward : Linear
  self_encoder_out_size : ℕ
  neighbor_encoder_out_size : ℕ

/-- The `self_encoder` network of a mean encoder. -/
def QuadMultiMeanEncoderS.selfEncoder (e : QuadMultiMeanEncoderS) : List ℚ → List ℚ :=
  selfEncode e.σ e.self_l1 e.self_l2

/-- The `neighbor_encoder` network of a mean encoder. -/
def QuadMultiMeanEncoderS.neighborEncoder (e : QuadMultiMeanEncoderS) : List ℚ → List ℚ :=
  fcEncode e.σ e.neighbor_l

/-- `QuadMultiMeanEncoder.forward` on a batch of observation rows:
column-slice into self and neighbor segments, encode the self segment,
reshape the neighbor segment to rows of `neighbor_obs_dim`, encode each,
reshape to (batch, -1, neighbor_hidden_size), mean over dim 1, concatenate
with the self embedding and apply `feed_forward`. -/
def QuadMultiMeanEncoderS.forward (e : QuadMultiMeanEncoderS)
    (obs : List (List ℚ)) : Option (List (List ℚ)) := do
  let obs_self := obs.map (List.take e.self_obs_dim)
  let obs_neighbors := obs.map (List.drop e.self_obs_dim)
  let self_embed := obs_self.map e.selfEncoder
  let obs_neighbors2 ← reshapeNeg1 e.neighbor_obs_dim obs_neighbors
  let neighbor_embeds := obs_neighbors2.map e.neighborEncoder
  let batch_size := obs_self.length
  let neighbor_embeds3 ← reshape3 batch_size e.neighbor_hidden_size neighbor_embeds
  let mean_embed ← meanDim1 e.neighbor_hidden_size neighbor_embeds3
  let embeddings := catDim1 self_embed mean_embed
  pure (embeddings.map e.feed_forward.apply)

/-- State of a constructed `QuadMultiHistogramEncoder`: the fields set by
`__init__`. -/
structure QuadMultiHistogramEncoderS where
  self_obs_dim : ℕ
  histogram_bins : ℕ
  histogram_hidden_size : ℕ
  σ : ℚ → ℚ
  self_l1 : Linear
  self_l2 : Linear
  histogram_l : Linear
  feed_forward : Linear
  self_encoder_out_size : ℕ
  histogram_encoder_out_size : ℕ
  encoder_out_size : ℕ

/-- The `self_encoder` network of a histogram encoder. -/
def QuadMultiHistogramEncoderS.selfEncoder (e : QuadMultiHistogramEncoderS) : List ℚ → List ℚ :=
  selfEncode e.σ e.self_l1 e.self_l2

/-- The `histogram_encoder` network of a histogram encoder. -/
def QuadMultiHistogramEncoderS.histogramEncoder (e : QuadMultiHistogramEncoderS) : List ℚ → List ℚ :=
  fcEncode e.σ e.histogram_l

/-- `QuadMultiHistogramEncoder.forward` on a batch of observation rows:
column-slice into self and histogram segments, encode both, concatenate
and apply `feed_forward`. -/
def QuadMultiHistogramEncoderS.forward (e : QuadMultiHistogramEncoderS)
    (obs : List (List ℚ)) : List (List ℚ) :=
  let obs_self := obs.map (List.take e.self_obs_dim)
  let obs_histogram := obs.map (List.drop e.self_obs_dim)
  let self_embed := obs_self.map e.selfEncoder
  let histogram_embeds := obs_histogram.map e.histogramEncoder
  let embeddings := catDim1 self_embed histogram_embeds
  embeddings.map e.feed_forward.apply

/-- A parameter initialiser: maps (layer index within `__init__`, in-dim,
out-dim) to the framework-initialised parameters of that `nn.Linear`. -/
def WInit := ℕ → ℕ → ℕ → Linear

/-- An initialiser is well formed when it produces parameters of the shape
`nn.Linear(inDim, outDim)` guarantees: `outDim` weight rows of length
`inDim` and `outDim` bias entries. -/
def WInit.WF (w : WInit) : Prop :=
  ∀ ix i o, (w ix i o).weight.length = o ∧
    (∀ r ∈ (w ix i o).weight, r.length = i) ∧ (w ix i o).bias.length = o

/-- `QuadMultiMeanEncoder.__init__`, with torch's random parameter draws
supplied by `w`. Layer indices follow construction order in the source. -/
def mkQuadMultiMeanEncoder (cfg : Cfg) (w : WInit)
    (self_obs_dim : ℕ := 18) (neighbor_obs_dim : ℕ := 6)
    (neighbor_hidden_size : ℕ := 32) : QuadMultiMeanEncoderS :=
  let fc_encoder_layer := cfg.hidden_size
  let l1 := w 0 self_obs_dim fc_encoder_layer
  let l2 := w 1 fc_encoder_layer fc_encoder_layer
  let ln := w 2 neighbor_obs_dim neighbor_hidden_size
  let self_out := calc_num_elements (selfEncode cfg.nonlin l1 l2) self_obs_dim
  let neighbor_out := calc_num_elements (fcEncode cfg.nonlin ln) neighbor_obs_dim
  { self_obs_dim := self_obs_dim
    neighbor_obs_dim := neighbor_obs_dim
    neighbor_hidden_size := neighbor_hidden_size
    σ := cfg.nonlin
    self_l1 := l1
    self_l2 := l2
    neighbor_l := ln
    feed_forward := w 3 (self_out + neighbor_out) cfg.hidden_size
    self_encoder_out_size := self_out
    neighbor_encoder_out_size := neighbor_out }

/-- `QuadMultiHistogramEncoder.__init__`, with torch's random parameter
draws supplied by `w`. Sets `encoder_out_size := cfg.hidden_size`. -/
def mkQuadMultiHistogramEncoder (cfg : Cfg) (w : WInit)
    (self_obs_dim : ℕ := 18) (histogram_bins : ℕ := 64)
    (histogram_hidden_size : ℕ := 64) : QuadMultiHistogramEncoderS :=
  let fc_encoder_layer := cfg.hidden_size
  let l1 := w 0 self_obs_dim fc_encoder_layer
  let l2 := w 1 fc_encoder_layer fc_encoder_layer
  let lh := w 2 histogram_bins histogram_hidden_size
  let self_out := calc_num_elements (selfEncode cfg.nonlin l1 l2) self_obs_dim
  let histogram_out := calc_num_elements (fcEncode cfg.nonlin lh) histogram_bins
  { self_obs_dim := self_obs_dim
    histogram_bins := histogram_bins
    histogram_hidden_size := histogram_hidden_size
    σ := cfg.nonlin
    self_l1 := l1
    self_l2 := l2
    histogram_l := lh
    feed_forward := w 3 (self_out + histogram_out) cfg.hidden_size
    self_encoder_out_size := self_out
    histogram_encoder_out_size := histogram_out
    encoder_out_size := cfg.hidden_size }

/-- The encoder classes this file can register (the values stored in the
registry). -/
inductive EncoderCls where
  | quadMultiMeanEncoder
  | quadMultiHistogramEncoder
  deriving DecidableEq

/-- The encoder registry `ENCODER_REGISTRY` from
`algorithms/appo/model_utils` (repository code outside `src/`).
Modelled from the spec: a process-wide mapping from string key to encoder
class; embedded as an association list, membership and lookup by key. -/
def Registry := List (String × EncoderCls)

/-- `register_custom_encoder` from `algorithms/appo/model_utils`
(repository code outside `src/`). Modelled from the spec: registers the
given class under the given key in the shared registry. -/
def register_custom_encoder (name : String) (cls : EncoderCls) (reg : Registry) : Registry :=
  (name, cls) :: reg

/-- Key lookup in the registry (Python `ENCODER_REGISTRY[key]` semantics:
the live binding for the key, if any). -/
def Registry.lookup (reg : Registry) (name : String) : Option EncoderCls :=
  List.lookup name reg

/-- Python `key in ENCODER_REGISTRY`. -/
def Registry.containsKey (reg : Registry) (name : String) : Bool :=
  (reg.lookup name).isSome

/-- Number of entries a key has in the registry. -/
def Registry.countKey (reg : Registry) (name : String) : ℕ :=
  (List.filter (fun p => p.1 == name) reg).length

/-- `register_models` from the source file, acting on an explicit registry
state. Returns the registry after the call together with the raised
error message, if any (`NotImplementedError` is modelled as the message
string). -/
def register_models (reg : Registry)
    (quad_custom_encoder_name : String := "quad_multi_encoder_deepset") :
    Registry × Option String :=
  if ¬ reg.containsKey quad_custom_encoder_name then
    if quad_custom_encoder_name = "quad_multi_encoder_deepset" then
      (register_custom_encoder quad_custom_encoder_name EncoderCls.quadMultiMeanEncoder reg,
        none)
    else if quad_custom_encoder_name = "quad_multi_encoder_histogram" then
      (register_custom_encoder quad_custom_encoder_name EncoderCls.quadMultiHistogramEncoder reg,
        none)
    else
      (reg, some ("encoder " ++ quad_custom_encoder_name ++ " not supported!"))
  else
    (reg, none)

/-- The mean-embedding pipeline exactly as the spec words it, per
observation row given as (self segment, list of per-neighbor vectors):
the self segment through the two-layer network, each neighbor vector
through the one-layer network, the neighbor embeddings averaged, the two
embeddings concatenated and passed through the final layer. Written from
the spec to be compared with `QuadMultiMeanEncoderS.forward`. -/
def meanEncoderSpecPipeline (e : QuadMultiMeanEncoderS)
    (selfSeg : List ℚ) (neighborVecs : List (List ℚ)) : List ℚ :=
  let selfEmbed := e.selfEncoder selfSeg
  let neighborEmbeds := neighborVecs.map e.neighborEncoder
  let meanEmbed := meanPool e.neighbor_hidden_size neighborEmbeds
  e.feed_forward.apply (selfEmbed ++ meanEmbed)

/-! ### Basic lemmas about the tensor primitives -/

theorem vecAdd_left_comm (a b c : List ℚ) :
    vecAdd a (vecAdd b c) = vecAdd b (vecAdd a c) := by
  induction a generalizing b c with
  | nil => cases b <;> cases c <;> simp [vecAdd]
  | cons x xs ih =>
    cases b with
    | nil => simp [vecAdd]
    | cons y ys =>
      cases c with
      | nil => simp [vecAdd]
      | cons z zs =>
        simp only [vecAdd, List.zipWith_cons_cons] at *
        congr 1
        · ring
        · exact ih ys zs

instance : LeftCommutative vecAdd := ⟨vecAdd_left_comm⟩

theorem length_vecAdd (a b : List ℚ) : (vecAdd a b).length = min a.length b.length := by
  simp [vecAdd]

theorem chunk_nil (d : ℕ) : chunk d ([] : List α) = [] := by
  rw [chunk]

theorem chunk_cons (e : ℕ) (x : α) (xs : List α) :
    chunk (e + 1) (x :: xs) =
      (x :: xs).take (e + 1) :: chunk (e + 1) ((x :: xs).drop (e + 1)) := by
  rw [chunk]

/-- Chunking the concatenation of lists of uniform positive length `d`
recovers the lists. -/
theorem chunk_flatten (d : ℕ) (hd : 0 < d) (L : List (List α))
    (h : ∀ x ∈ L, x.length = d) : chunk d L.flatten = L := by
  induction L with
  | nil => simp [chunk_nil]
  | cons x xs ih =>
    obtain ⟨e, rfl⟩ : ∃ e, d = e + 1 := ⟨d - 1, by omega⟩
    have hx : x.length = e + 1 := h x (by simp)
    obtain ⟨a, as, rfl⟩ : ∃ a as, x = a :: as := by
      cases x with
      | nil => simp at hx
      | cons a as => exact ⟨a, as, rfl⟩
    have hflat : ((a :: as) :: xs).flatten = a :: (as ++ xs.flatten) := by
      simp [List.flatten_cons]
    rw [hflat, chunk_cons]
    have hsplit : a :: (as ++ xs.flatten) = (a :: as) ++ xs.flatten := by simp
    rw [hsplit, List.take_left' hx, List.drop_left' hx]
    rw [ih (fun y hy => h y (by simp [hy]))]

/-- Chunking a list whose length is `m * d` (with `d > 0`) yields `m`
chunks, each of length `d`. -/
theorem chunk_shape (d : ℕ) (hd : 0 < d) :
    ∀ (m : ℕ) (l : List α), l.length = m * d →
      (chunk d l).length = m ∧ ∀ c ∈ chunk d l, c.length = d := by
  intro m
  induction m with
  | zero =>
    intro l hl
    have : l = [] := List.length_eq_zero.mp (by simpa using hl)
    subst this
    simp [chunk_nil]
  | succ m ih =>
    intro l hl
    obtain ⟨e, rfl⟩ : ∃ e, d = e + 1 := ⟨d - 1, by omega⟩
    obtain ⟨a, as, rfl⟩ : ∃ a as, l = a :: as := by
      cases l with
      | nil => exfalso; simp [Nat.succ_mul] at hl; omega
      | cons a as => exact ⟨a, as, rfl⟩
    rw [chunk_cons]
    have hlen : (a :: as).length = m * (e + 1) + (e + 1) := by
      rw [hl, Nat.succ_mul]
    have htake : ((a :: as).take (e + 1)).length = e + 1 := by
      rw [List.length_take]
      omega
    have hdrop : ((a :: as).drop (e + 1)).length = m * (e + 1) := by
      rw [List.length_drop]
      omega
    obtain ⟨ihl, ihc⟩ := ih _ hdrop
    refine ⟨by simpa using ihl, ?_⟩
    intro c hc
    rcases List.mem_cons.mp hc with hc | hc
    · rw [hc]; exact htake
    · exact ihc _ (by simpa using hc)

/-- The flattened length of a list of lists of uniform length `d`. -/
theorem flatten_length_uniform (L : List (List α)) (d : ℕ)
    (h : ∀ x ∈ L, x.length = d) : L.flatten.length = L.length * d := by
  rw [List.length_flatten]
  have : L.map List.length = List.replicate L.length d :=
    List.eq_replicate_iff.mpr ⟨by simp, by simpa using h⟩
  rw [this, List.sum_replicate, smul_eq_mul]

theorem Linear.length_apply (l : Linear) (x : List ℚ) :
    (l.apply x).length = min l.weight.length l.bias.length := by
  simp [Linear.apply, List.length_zip]

theorem length_fcEncode (σ : ℚ → ℚ) (l : Linear) (x : List ℚ) :
    (fcEncode σ l x).length = min l.weight.length l.bias.length := by
  simp [fcEncode, Linear.length_apply]

theorem length_selfEncode (σ : ℚ → ℚ) (l1 l2 : Linear) (x : List ℚ) :
    (selfEncode σ l1 l2 x).length = min l2.weight.length l2.bias.length := by
  simp [selfEncode, Linear.length_apply]

theorem length_foldr_vecAdd (H : ℕ) (rows : List (List ℚ))
    (h : ∀ r ∈ rows, r.length = H) :
    (rows.foldr vecAdd (List.replicate H 0)).length = H := by
  induction rows with
  | nil => simp
  | cons r rs ih =>
    simp only [List.foldr_cons, length_vecAdd]
    rw [ih (fun x hx => h x (by simp [hx])), h r (by simp)]
    simp

theorem length_meanPool (H : ℕ) (rows : List (List ℚ))
    (h : ∀ r ∈ rows, r.length = H) : (meanPool H rows).length = H := by
  simp [meanPool, length_foldr_vecAdd H rows h]

/-- `meanPool` only depends on the multiset of rows: it is invariant under
permutation. -/
theorem meanPool_perm (H : ℕ) {rows rows' : List (List ℚ)}
    (h : rows.Perm rows') : meanPool H rows = meanPool H rows' := by
  unfold meanPool
  rw [h.foldr_eq, h.length_eq]

/-! ### Evaluating the mean-encoder forward pass on a well-shaped batch -/

/-- On a batch whose rows are a self segment of length `self_obs_dim`
followed by `n` neighbor vectors of length `neighbor_obs_dim` each,
`QuadMultiMeanEncoderS.forward` succeeds and computes, row by row, the
mean-embedding pipeline. -/
theorem forward_eq_pipeline (e : QuadMultiMeanEncoderS)
    (items : List (List ℚ × List (List ℚ))) (n : ℕ)
    (hn : 0 < n) (hne : items ≠ [])
    (hd : 0 < e.neighbor_obs_dim) (hH : 0 < e.neighbor_hidden_size)
    (hWn : e.neighbor_l.weight.length = e.neighbor_hidden_size)
    (hbn : e.neighbor_l.bias.length = e.neighbor_hidden_size)
    (hself : ∀ p ∈ items, (p.1 : List ℚ).length = e.self_obs_dim)
    (hcount : ∀ p ∈ items, (p.2 : List (List ℚ)).length = n)
    (hchunk : ∀ p ∈ items, ∀ c ∈ p.2, c.length = e.neighbor_obs_dim) :
    e.forward (items.map (fun p => p.1 ++ p.2.flatten))
      = some (items.map (fun p => meanEncoderSpecPipeline e p.1 p.2)) := by
  have h1 : (items.map (fun p => p.1 ++ p.2.flatten)).map (List.take e.self_obs_dim)
      = items.map (fun p => p.1) := by
    rw [List.map_map]
    exact List.map_congr_left fun p hp => by
      simpa using List.take_left' (hself p hp)
  have h2 : (items.map (fun p => p.1 ++ p.2.flatten)).map (List.drop e.self_obs_dim)
      = items.map (fun p => p.2.flatten) := by
    rw [List.map_map]
    exact List.map_congr_left fun p hp => by
      simpa using List.drop_left' (hself p hp)
  have hflat : (items.map (fun p => p.2.flatten)).flatten
      = ((items.map (fun p => p.2)).flatten).flatten := by
    rw [List.flatten_flatten, List.map_map]
    rfl
  have hAllMem : ∀ c ∈ (items.map (fun p => p.2)).flatten,
      c.length = e.neighbor_obs_dim := by
    intro c hc
    obtain ⟨l, hl, hcl⟩ := List.mem_flatten.mp hc
    obtain ⟨p, hp, rfl⟩ := List.mem_map.mp hl
    exact hchunk p hp c hcl
  have hAllLen : ((items.map (fun p => p.2)).flatten).length = items.length * n := by
    rw [flatten_length_uniform _ n]
    · rw [List.length_map]
    · intro x hx
      obtain ⟨p, hp, rfl⟩ := List.mem_map.mp hx
      exact hcount p hp
  have hr1 : reshapeNeg1 e.neighbor_obs_dim (items.map (fun p => p.2.flatten))
      = some ((items.map (fun p => p.2)).flatten) := by
    have hcond : e.neighbor_obs_dim ≠ 0 ∧
        e.neighbor_obs_dim ∣ ((items.map (fun p => p.2.flatten)).flatten).length := by
      refine ⟨by omega, ?_⟩
      rw [hflat, flatten_length_uniform _ _ hAllMem]
      exact dvd_mul_left _ _
    simp only [reshapeNeg1]
    rw [if_pos hcond, hflat, chunk_flatten _ hd _ hAllMem]
  have hEmbRow : ((items.map (fun p => p.2)).flatten).map e.neighborEncoder
      = (items.map (fun p => p.2.map e.neighborEncoder)).flatten := by
    rw [List.map_flatten, List.map_map]
    rfl
  have hEmbMem : ∀ r ∈ ((items.map (fun p => p.2)).flatten).map e.neighborEncoder,
      r.length = e.neighbor_hidden_size := by
    intro r hr
    obtain ⟨c, _, rfl⟩ := List.mem_map.mp hr
    simp [QuadMultiMeanEncoderS.neighborEncoder, length_fcEncode, hWn, hbn]
  have hRowLen : ∀ x ∈ items.map (fun p => p.2.map e.neighborEncoder), x.length = n := by
    intro x hx
    obtain ⟨p, hp, rfl⟩ := List.mem_map.mp hx
    simpa using hcount p hp
  have hlen2 : ((((items.map (fun p => p.2)).flatten).map e.neighborEncoder).flatten).length
      = (items.length * e.neighbor_hidden_size) * n := by
    rw [flatten_length_uniform _ _ hEmbMem, List.length_map, hAllLen]
    ring
  have hB : 0 < items.length := List.length_pos.mpr hne
  have hpos : 0 < items.length * e.neighbor_hidden_size := Nat.mul_pos hB hH
  have hr3 : reshape3 items.length e.neighbor_hidden_size
      (((items.map (fun p => p.2)).flatten).map e.neighborEncoder)
      = some (items.map (fun p => p.2.map e.neighborEncoder)) := by
    simp only [reshape3, hlen2]
    rw [if_pos ⟨by omega, ⟨n, rfl⟩⟩, Nat.mul_div_cancel_left n hpos,
      if_neg (by omega), chunk_flatten _ hH _ hEmbMem, hEmbRow,
      chunk_flatten _ hn _ hRowLen]
  have hmean : meanDim1 e.neighbor_hidden_size (items.map (fun p => p.2.map e.neighborEncoder))
      = some ((items.map (fun p => p.2.map e.neighborEncoder)).map
          (meanPool e.neighbor_hidden_size)) := by
    simp only [meanDim1]
    rw [if_pos]
    intro g hg
    obtain ⟨p, hp, rfl⟩ := List.mem_map.mp hg
    have : (p.2.map e.neighborEncoder).length = n := by simpa using hcount p hp
    intro hnil
    rw [hnil] at this
    simp at this
    omega
  simp only [QuadMultiMeanEncoderS.forward, h1, h2, hr1, Option.bind_eq_bind,
    Option.some_bind, List.length_map, hr3, hmean, Option.pure_def]
  simp only [catDim1, List.map_map, List.zipWith_map_left, List.zipWith_map_right,
    List.zipWith_same, List.map_map]
  exact congrArg some (List.map_congr_left fun p _ => rfl)

/-! ### Permutation-invariance helpers -/

theorem forall2_mem_right {α β : Type} {R : α → β → Prop} {l1 : List α}
    {l2 : List β} (h : List.Forall₂ R l1 l2) :
    ∀ b ∈ l2, ∃ a ∈ l1, R a b := by
  induction h with
  | nil => simp
  | cons hr _ ih =>
    intro b hb
    rcases List.mem_cons.mp hb with rfl | hb
    · exact ⟨_, by simp, hr⟩
    · obtain ⟨a, ha, hR⟩ := ih b hb
      exact ⟨a, by simp [ha], hR⟩

/-- The spec pipeline is invariant under permutation of the neighbor
vectors. -/
theorem meanEncoderSpecPipeline_perm (e : QuadMultiMeanEncoderS)
    (s : List ℚ) {v v' : List (List ℚ)} (h : v.Perm v') :
    meanEncoderSpecPipeline e s v = meanEncoderSpecPipeline e s v' := by
  simp only [meanEncoderSpecPipeline]
  rw [meanPool_perm _ (h.map _)]

theorem pipeline_map_eq_of_forall2 (e : QuadMultiMeanEncoderS)
    {l1 l2 : List (List ℚ × List (List ℚ))}
    (h : List.Forall₂ (fun p q => p.1 = q.1 ∧ (p.2 : List (List ℚ)).Perm q.2) l1 l2) :
    l1.map (fun p => meanEncoderSpecPipeline e p.1 p.2)
      = l2.map (fun p => meanEncoderSpecPipeline e p.1 p.2) := by
  induction h with
  | nil => rfl
  | cons hr _ ih =>
    simp only [List.map_cons]
    rw [ih, hr.1, meanEncoderSpecPipeline_perm e _ hr.2]

/-! ### Shape helpers -/

theorem length_meanEncoderSpecPipeline (e : QuadMultiMeanEncoderS)
    (s : List ℚ) (v : List (List ℚ)) :
    (meanEncoderSpecPipeline e s v).length
      = min e.feed_forward.weight.length e.feed_forward.bias.length := by
  simp [meanEncoderSpecPipeline, Linear.length_apply]

theorem histogram_forward_shape (e : QuadMultiHistogramEncoderS)
    (obs : List (List ℚ)) :
    (e.forward obs).length = obs.length ∧
      ∀ r ∈ e.forward obs,
        r.length = min e.feed_forward.weight.length e.feed_forward.bias.length := by
  constructor
  · simp [QuadMultiHistogramEncoderS.forward, catDim1]
  · intro r hr
    simp only [QuadMultiHistogramEncoderS.forward, catDim1] at hr
    obtain ⟨x, _, rfl⟩ := List.mem_map.mp hr
    exact Linear.length_apply _ _

theorem mean_feed_forward_shape (cfg : Cfg) (w : WInit) (hw : w.WF)
    (sd nd nh : ℕ) :
    (mkQuadMultiMeanEncoder cfg w sd nd nh).feed_forward.weight.length = cfg.hidden_size ∧
      (mkQuadMultiMeanEncoder cfg w sd nd nh).feed_forward.bias.length = cfg.hidden_size :=
  ⟨(hw 3 _ _).1, (hw 3 _ _).2.2⟩

theorem hist_feed_forward_shape (cfg : Cfg) (w : WInit) (hw : w.WF)
    (sd hb hh : ℕ) :
    (mkQuadMultiHistogramEncoder cfg w sd hb hh).feed_forward.weight.length = cfg.hidden_size ∧
      (mkQuadMultiHistogramEncoder cfg w sd hb hh).feed_forward.bias.length = cfg.hidden_size :=
  ⟨(hw 3 _ _).1, (hw 3 _ _).2.2⟩

/-! ### Concrete fixtures used to instantiate the theorems -/

/-- A tiny mean encoder (all segment widths 1, identity nonlinearity,
explicit parameters). -/
def meanEnc0 : QuadMultiMeanEncoderS :=
  { self_obs_dim := 1
    neighbor_obs_dim := 1
    neighbor_hidden_size := 1
    σ := id
    self_l1 := ⟨[[1]], [0]⟩
    self_l2 := ⟨[[1]], [0]⟩
    neighbor_l := ⟨[[1]], [0]⟩
    feed_forward := ⟨[[1, 1]], [0]⟩
    self_encoder_out_size := 1
    neighbor_encoder_out_size := 1 }

/-- One observation row for `meanEnc0`: self segment `[0]`, two neighbor
vectors `[1]` and `[2]`. -/
def items0 : List (List ℚ × List (List ℚ)) := [([0], [[1], [2]])]

/-- The same observation with the two neighbor vectors swapped. -/
def items1 : List (List ℚ × List (List ℚ)) := [([0], [[2], [1]])]

/-- A zero-filled parameter initialiser of the correct shapes. -/
def w0 : WInit := fun _ i o => ⟨List.replicate o (List.replicate i 0), List.replicate o 0⟩

theorem w0_wf : WInit.WF w0 := by
  intro ix i o
  refine ⟨by simp [w0], ?_, by simp [w0]⟩
  intro r hr
  rw [List.eq_of_mem_replicate hr]
  simp

/-! ### Claim theorems: mean-encoder pipeline -/

/-- C6: on a batch whose rows are a self segment of length `self_obs_dim`
followed by `n` neighbor vectors of length `neighbor_obs_dim`,
`QuadMultiMeanEncoder.forward` computes exactly the specified pipeline:
the self segment through the two-layer network with nonlinearities, the
neighbor remainder reshaped to per-neighbor rows, each through the
one-layer network with nonlinearity, reshaped back and averaged over the
neighbor axis, then concatenated with the self embedding and passed
through the final fully-connected layer. -/
theorem mean_forward_computes_spec_pipeline (e : QuadMultiMeanEncoderS)
    (items : List (List ℚ × List (List ℚ))) (n : ℕ)
    (hn : 0 < n) (hne : items ≠ [])
    (hd : 0 < e.neighbor_obs_dim) (hH : 0 < e.neighbor_hidden_size)
    (hWn : e.neighbor_l.weight.length = e.neighbor_hidden_size)
    (hbn : e.neighbor_l.bias.length = e.neighbor_hidden_size)
    (hself : ∀ p ∈ items, (p.1 : List ℚ).length = e.self_obs_dim)
    (hcount : ∀ p ∈ items, (p.2 : List (List ℚ)).length = n)
    (hchunk : ∀ p ∈ items, ∀ c ∈ p.2, c.length = e.neighbor_obs_dim) :
    e.forward (items.map (fun p => p.1 ++ p.2.flatten))
      = some (items.map (fun p => meanEncoderSpecPipeline e p.1 p.2)) :=
  forward_eq_pipeline e items n hn hne hd hH hWn hbn hself hcount hchunk

theorem mean_forward_computes_spec_pipeline_witness :
    QuadMultiMeanEncoderS.forward meanEnc0 (items0.map (fun p => p.1 ++ p.2.flatten))
      = some (items0.map (fun p => meanEncoderSpecPipeline meanEnc0 p.1 p.2)) :=
  mean_forward_computes_spec_pipeline meanEnc0 items0 2 (by decide) (by decide)
    (by decide) (by decide) (by decide) (by decide) (by decide) (by decide) (by decide)

/-- C1: with all network parameters held fixed, the output of
`QuadMultiMeanEncoder.forward` is unchanged when, in each row, the `n`
per-neighbor vectors inside the neighbor segment are permuted (mean
pooling is symmetric in the neighbor ordering). -/
theorem mean_forward_neighbor_perm_invariant (e : QuadMultiMeanEncoderS)
    (items items' : List (List ℚ × List (List ℚ))) (n : ℕ)
    (hn : 0 < n) (hne : items ≠ [])
    (hd : 0 < e.neighbor_obs_dim) (hH : 0 < e.neighbor_hidden_size)
    (hWn : e.neighbor_l.weight.length = e.neighbor_hidden_size)
    (hbn : e.neighbor_l.bias.length = e.neighbor_hidden_size)
    (hself : ∀ p ∈ items, (p.1 : List ℚ).length = e.self_obs_dim)
    (hcount : ∀ p ∈ items, (p.2 : List (List ℚ)).length = n)
    (hchunk : ∀ p ∈ items, ∀ c ∈ p.2, c.length = e.neighbor_obs_dim)
    (hrel : List.Forall₂ (fun p q => p.1 = q.1 ∧ (p.2 : List (List ℚ)).Perm q.2)
      items items') :
    e.forward (items.map (fun p => p.1 ++ p.2.flatten))
      = e.forward (items'.map (fun p => p.1 ++ p.2.flatten)) := by
  have hmem := forall2_mem_right hrel
  have hne' : items' ≠ [] := by
    intro habs
    apply hne
    apply List.length_eq_zero.mp
    rw [hrel.length_eq, habs]
    rfl
  have hself' : ∀ q ∈ items', (q.1 : List ℚ).length = e.self_obs_dim := by
    intro q hq
    obtain ⟨p, hp, h1, _⟩ := hmem q hq
    rw [← h1]
    exact hself p hp
  have hcount' : ∀ q ∈ items', (q.2 : List (List ℚ)).length = n := by
    intro q hq
    obtain ⟨p, hp, _, h2⟩ := hmem q hq
    rw [← h2.length_eq]
    exact hcount p hp
  have hchunk' : ∀ q ∈ items', ∀ c ∈ q.2, c.length = e.neighbor_obs_dim := by
    intro q hq c hc
    obtain ⟨p, hp, _, h2⟩ := hmem q hq
    exact hchunk p hp c (h2.mem_iff.mpr hc)
  rw [forward_eq_pipeline e items n hn hne hd hH hWn hbn hself hcount hchunk,
    forward_eq_pipeline e items' n hn hne' hd hH hWn hbn hself' hcount' hchunk',
    pipeline_map_eq_of_forall2 e hrel]

theorem mean_forward_neighbor_perm_invariant_witness :
    QuadMultiMeanEncoderS.forward meanEnc0 (items0.map (fun p => p.1 ++ p.2.flatten))
      = QuadMultiMeanEncoderS.forward meanEnc0 (items1.map (fun p => p.1 ++ p.2.flatten)) :=
  mean_forward_neighbor_perm_invariant meanEnc0 items0 items1 2 (by decide) (by decide)
    (by decide) (by decide) (by decide) (by decide) (by decide) (by decide) (by decide)
    (List.Forall₂.cons ⟨rfl, by decide⟩ List.Forall₂.nil)

/-- C5: for every valid batch whose rows are a self segment of length
`self_obs_dim` followed by the context segment of the shape the encoder
was constructed for, both encoders return a batch-sized list of rows of
length `cfg.hidden_size`. -/
theorem quad_encoders_output_shape (cfg : Cfg) (w : WInit) (hw : w.WF)
    (sd nd nh hb hh : ℕ) (hnd : 0 < nd) (hnh : 0 < nh)
    (items : List (List ℚ × List (List ℚ))) (n : ℕ)
    (hn : 0 < n) (hne : items ≠ [])
    (hitems : ∀ p ∈ items, (p.1 : List ℚ).length = sd ∧
      (p.2 : List (List ℚ)).length = n ∧ ∀ c ∈ p.2, c.length = nd)
    (obsh : List (List ℚ)) (_hobsh : ∀ r ∈ obsh, r.length = sd + hb) :
    (∃ out, (mkQuadMultiMeanEncoder cfg w sd nd nh).forward
        (items.map (fun p => p.1 ++ p.2.flatten))
        = some out ∧ out.length = items.length ∧
        ∀ r ∈ out, r.length = cfg.hidden_size) ∧
    ((mkQuadMultiHistogramEncoder cfg w sd hb hh).forward obsh).length = obsh.length ∧
      ∀ r ∈ (mkQuadMultiHistogramEncoder cfg w sd hb hh).forward obsh,
        r.length = cfg.hidden_size := by
  refine ⟨?_, ?_, ?_⟩
  · refine ⟨_, forward_eq_pipeline (mkQuadMultiMeanEncoder cfg w sd nd nh) items n hn hne
      hnd hnh (hw 2 _ _).1 (hw 2 _ _).2.2
      (fun p hp => (hitems p hp).1) (fun p hp => (hitems p hp).2.1)
      (fun p hp => (hitems p hp).2.2), by simp, ?_⟩
    intro r hr
    obtain ⟨p, hp, rfl⟩ := List.mem_map.mp hr
    rw [length_meanEncoderSpecPipeline, (mean_feed_forward_shape cfg w hw _ _ _).1,
      (mean_feed_forward_shape cfg w hw _ _ _).2]
    exact min_self _
  · exact (histogram_forward_shape _ obsh).1
  · intro r hr
    have h2 := (histogram_forward_shape (mkQuadMultiHistogramEncoder cfg w sd hb hh) obsh).2 r hr
    rw [h2, (hist_feed_forward_shape cfg w hw _ _ _).1,
      (hist_feed_forward_shape cfg w hw _ _ _).2]
    exact min_self _

/-- A configuration with hidden size 1 and identity nonlinearity. -/
def cfg0 : Cfg := ⟨1, id⟩

/-- A valid batch for the default mean encoder: one row, one neighbor. -/
def items18 : List (List ℚ × List (List ℚ)) :=
  [(List.replicate 18 0, [List.replicate 6 0])]

/-- A valid batch for the default histogram encoder: one row of width
18 + 64. -/
def obsh0 : List (List ℚ) := [List.replicate 82 0]

theorem quad_encoders_output_shape_witness :
    (∃ out, (mkQuadMultiMeanEncoder cfg0 w0).forward
        (items18.map (fun p => p.1 ++ p.2.flatten)) = some out ∧
        out.length = items18.length ∧ ∀ r ∈ out, r.length = cfg0.hidden_size) ∧
    ((mkQuadMultiHistogramEncoder cfg0 w0).forward obsh0).length = obsh0.length ∧
      ∀ r ∈ (mkQuadMultiHistogramEncoder cfg0 w0).forward obsh0,
        r.length = cfg0.hidden_size :=
  quad_encoders_output_shape cfg0 w0 w0_wf 18 6 32 64 64 (by decide) (by decide)
    items18 1 (by decide) (by decide) (by decide) obsh0 (by decide)

/-- C9: for a nonempty batch of uniform width, `QuadMultiMeanEncoder.forward`
is defined (neither reshape fails nor the neighbor mean degenerates to NaN)
exactly when the neighbor segment length — observation width minus
`self_obs_dim` — is a positive multiple of `neighbor_obs_dim`. -/
theorem mean_forward_defined_iff (e : QuadMultiMeanEncoderS)
    (obs : List (List ℚ)) (width : ℕ)
    (hne : obs ≠ [])
    (hwidth : ∀ r ∈ obs, r.length = width)
    (hd : 0 < e.neighbor_obs_dim) (hH : 0 < e.neighbor_hidden_size)
    (hWn : e.neighbor_l.weight.length = e.neighbor_hidden_size)
    (hbn : e.neighbor_l.bias.length = e.neighbor_hidden_size) :
    (e.forward obs).isSome = true ↔
      (e.neighbor_obs_dim ∣ (width - e.self_obs_dim) ∧
        0 < width - e.self_obs_dim) := by
  have hB : 0 < obs.length := List.length_pos.mpr hne
  have hnlen : ∀ r ∈ obs.map (List.drop e.self_obs_dim),
      r.length = width - e.self_obs_dim := by
    intro r hr
    obtain ⟨x, hx, rfl⟩ := List.mem_map.mp hr
    rw [List.length_drop, hwidth x hx]
  have hflatlen : ((obs.map (List.drop e.self_obs_dim)).flatten).length
      = obs.length * (width - e.self_obs_dim) := by
    rw [flatten_length_uniform _ _ hnlen, List.length_map]
  by_cases hdvd : e.neighbor_obs_dim ∣ obs.length * (width - e.self_obs_dim)
  · obtain ⟨T, hTeq⟩ := hdvd
    have hr1 : reshapeNeg1 e.neighbor_obs_dim (obs.map (List.drop e.self_obs_dim))
        = some (chunk e.neighbor_obs_dim (obs.map (List.drop e.self_obs_dim)).flatten) := by
      simp only [reshapeNeg1]
      rw [if_pos ⟨by omega, by rw [hflatlen, hTeq]; exact Dvd.intro T rfl⟩]
    obtain ⟨hclen, hcmem⟩ := chunk_shape e.neighbor_obs_dim hd T
      ((obs.map (List.drop e.self_obs_dim)).flatten)
      (by rw [hflatlen, hTeq, Nat.mul_comm])
    have hemem : ∀ r ∈ (chunk e.neighbor_obs_dim
        (obs.map (List.drop e.self_obs_dim)).flatten).map e.neighborEncoder,
        r.length = e.neighbor_hidden_size := by
      intro r hr
      obtain ⟨c, _, rfl⟩ := List.mem_map.mp hr
      simp [QuadMultiMeanEncoderS.neighborEncoder, length_fcEncode, hWn, hbn]
    have heflat : (((chunk e.neighbor_obs_dim
        (obs.map (List.drop e.self_obs_dim)).flatten).map e.neighborEncoder).flatten).length
        = T * e.neighbor_hidden_size := by
      rw [flatten_length_uniform _ _ hemem, List.length_map, hclen]
    by_cases hdvd2 : obs.length ∣ T
    · obtain ⟨m, hm⟩ := hdvd2
      have hndef : (((chunk e.neighbor_obs_dim
          (obs.map (List.drop e.self_obs_dim)).flatten).map e.neighborEncoder).flatten).length
          / (obs.length * e.neighbor_hidden_size) = m := by
        rw [heflat, hm,
          show obs.length * m * e.neighbor_hidden_size
            = (obs.length * e.neighbor_hidden_size) * m by ring]
        exact Nat.mul_div_cancel_left m (Nat.mul_pos hB hH)
      by_cases hm0 : m = 0
      · have hr3 : reshape3 obs.length e.neighbor_hidden_size
            ((chunk e.neighbor_obs_dim
              (obs.map (List.drop e.self_obs_dim)).flatten).map e.neighborEncoder)
            = some (List.replicate obs.length []) := by
          simp only [reshape3]
          rw [if_pos ⟨(Nat.mul_pos hB hH).ne', by rw [heflat, hm, hm0]; simp⟩]
          simp only [hndef]
          rw [if_pos hm0]
        have hmean : meanDim1 e.neighbor_hidden_size
            (List.replicate obs.length ([] : List (List ℚ))) = none := by
          simp only [meanDim1]
          rw [if_neg]
          push_neg
          exact ⟨[], List.mem_replicate.mpr ⟨by omega, rfl⟩, rfl⟩
        simp only [QuadMultiMeanEncoderS.forward, Option.bind_eq_bind, hr1,
          Option.some_bind, List.length_map, hr3, hmean, Option.none_bind]
        refine iff_of_false (by simp) ?_
        rintro ⟨hdl, hlpos⟩
        have hz : obs.length * (width - e.self_obs_dim) = 0 := by
          rw [hTeq, hm, hm0]
          ring
        rcases Nat.mul_eq_zero.mp hz with h | h
        · omega
        · omega
      · have hr3 : reshape3 obs.length e.neighbor_hidden_size
            ((chunk e.neighbor_obs_dim
              (obs.map (List.drop e.self_obs_dim)).flatten).map e.neighborEncoder)
            = some (chunk m ((chunk e.neighbor_obs_dim
              (obs.map (List.drop e.self_obs_dim)).flatten).map e.neighborEncoder)) := by
          simp only [reshape3]
          rw [if_pos ⟨(Nat.mul_pos hB hH).ne',
            by rw [heflat, hm]; exact ⟨m, by ring⟩⟩]
          simp only [hndef]
          rw [if_neg hm0, chunk_flatten _ hH _ hemem]
        obtain ⟨hg1, hg2⟩ := chunk_shape m (Nat.pos_of_ne_zero hm0) obs.length
          ((chunk e.neighbor_obs_dim
            (obs.map (List.drop e.self_obs_dim)).flatten).map e.neighborEncoder)
          (by rw [List.length_map, hclen, hm])
        have hmean : meanDim1 e.neighbor_hidden_size
            (chunk m ((chunk e.neighbor_obs_dim
              (obs.map (List.drop e.self_obs_dim)).flatten).map e.neighborEncoder))
            = some ((chunk m ((chunk e.neighbor_obs_dim
              (obs.map (List.drop e.self_obs_dim)).flatten).map e.neighborEncoder)).map
                (meanPool e.neighbor_hidden_size)) := by
          simp only [meanDim1]
          rw [if_pos]
          intro g hg hnil
          have := hg2 g hg
          rw [hnil] at this
          simp at this
          omega
        simp only [QuadMultiMeanEncoderS.forward, Option.bind_eq_bind, hr1,
          Option.some_bind, List.length_map, hr3, hmean, Option.pure_def]
        refine iff_of_true (by simp) ?_
        have hmul : obs.length * (width - e.self_obs_dim)
            = obs.length * (e.neighbor_obs_dim * m) := by
          rw [hTeq, hm]
          ring
        have hlen : width - e.self_obs_dim = e.neighbor_obs_dim * m :=
          Nat.eq_of_mul_eq_mul_left hB hmul
        refine ⟨⟨m, hlen⟩, ?_⟩
        rw [hlen]
        exact Nat.mul_pos hd (Nat.pos_of_ne_zero hm0)
    · have hr3 : reshape3 obs.length e.neighbor_hidden_size
          ((chunk e.neighbor_obs_dim
            (obs.map (List.drop e.self_obs_dim)).flatten).map e.neighborEncoder)
          = none := by
        simp only [reshape3]
        rw [if_neg]
        rintro ⟨-, hdv⟩
        rw [heflat] at hdv
        exact hdvd2 ((Nat.mul_dvd_mul_iff_right hH).mp hdv)
      simp only [QuadMultiMeanEncoderS.forward, Option.bind_eq_bind, hr1,
        Option.some_bind, List.length_map, hr3, Option.none_bind]
      refine iff_of_false (by simp) ?_
      rintro ⟨hdl, hlpos⟩
      obtain ⟨u, hu⟩ := hdl
      apply hdvd2
      have hTu : e.neighbor_obs_dim * T = e.neighbor_obs_dim * (obs.length * u) := by
        rw [← hTeq, hu]
        ring
      exact ⟨u, Nat.eq_of_mul_eq_mul_left hd hTu⟩
  · have hr1 : reshapeNeg1 e.neighbor_obs_dim (obs.map (List.drop e.self_obs_dim))
        = none := by
      simp only [reshapeNeg1]
      rw [if_neg]
      rintro ⟨-, hdv⟩
      rw [hflatlen] at hdv
      exact hdvd hdv
    simp only [QuadMultiMeanEncoderS.forward, Option.bind_eq_bind, hr1,
      Option.none_bind]
    refine iff_of_false (by simp) ?_
    rintro ⟨hdl, hlpos⟩
    exact hdvd (hdl.mul_left _)

theorem mean_forward_defined_iff_witness :
    (QuadMultiMeanEncoderS.forward meanEnc0 [[5, 7]]).isSome = true ↔
      (meanEnc0.neighbor_obs_dim ∣ (2 - meanEnc0.self_obs_dim) ∧
        0 < 2 - meanEnc0.self_obs_dim) :=
  mean_forward_defined_iff meanEnc0 [[5, 7]] 2 (by decide) (by decide)
    (by decide) (by decide) (by decide) (by decide)

/-! ### Registry lemmas -/

theorem Registry.lookup_insert_self (reg : Registry) (name : String) (cls : EncoderCls) :
    Registry.lookup (register_custom_encoder name cls reg) name = some cls := by
  show List.lookup name ((name, cls) :: reg) = some cls
  rw [List.lookup_cons]
  simp

theorem Registry.lookup_insert_other (reg : Registry) (name other : String)
    (cls : EncoderCls) (h : other ≠ name) :
    Registry.lookup (register_custom_encoder name cls reg) other
      = Registry.lookup reg other := by
  show List.lookup other ((name, cls) :: reg) = List.lookup other reg
  rw [List.lookup_cons]
  have hb : (other == name) = false := beq_eq_false_iff_ne.mpr h
  rw [hb]

theorem register_models_of_contains (reg : Registry) (key : String)
    (h : (Registry.lookup reg key).isSome = true) :
    register_models reg key = (reg, none) := by
  simp only [register_models]
  rw [if_neg]
  exact not_not_intro h

theorem register_models_fresh_deepset (reg : Registry)
    (h : Registry.lookup reg "quad_multi_encoder_deepset" = none) :
    register_models reg "quad_multi_encoder_deepset"
      = (register_custom_encoder "quad_multi_encoder_deepset"
          EncoderCls.quadMultiMeanEncoder reg, none) := by
  simp only [register_models, Registry.containsKey, h, Option.isSome_none]
  simp

theorem register_models_fresh_histogram (reg : Registry)
    (h : Registry.lookup reg "quad_multi_encoder_histogram" = none) :
    register_models reg "quad_multi_encoder_histogram"
      = (register_custom_encoder "quad_multi_encoder_histogram"
          EncoderCls.quadMultiHistogramEncoder reg, none) := by
  simp only [register_models, Registry.containsKey, h, Option.isSome_none]
  simp

theorem countKey_eq_zero_of_lookup_none (reg : Registry) (k : String)
    (h : Registry.lookup reg k = none) : Registry.countKey reg k = 0 := by
  induction reg with
  | nil => rfl
  | cons p ps ih =>
    obtain ⟨k', v⟩ := p
    cases hkk : (k == k') with
    | true =>
      exfalso
      have hv : Registry.lookup ((k', v) :: ps) k = some v := by
        show List.lookup k ((k', v) :: ps) = some v
        rw [List.lookup_cons, hkk]
      rw [hv] at h
      exact Option.noConfusion h
    | false =>
      have h' : Registry.lookup ps k = none := by
        have hstep : Registry.lookup ((k', v) :: ps) k = List.lookup k ps := by
          show List.lookup k ((k', v) :: ps) = _
          rw [List.lookup_cons, hkk]
        rw [hstep] at h
        exact h
      have hkk' : (k' == k) = false := by
        rw [beq_eq_false_iff_ne] at hkk ⊢
        exact fun he => hkk he.symm
      show (List.filter (fun p => p.1 == k) ((k', v) :: ps)).length = 0
      rw [List.filter_cons]
      simp only [hkk', if_false]
      exact ih h'

/-! ### Claim theorems: registration -/

/-- C2: for a key not in the registry and different from the two
recognized literals, `register_models` raises a not-implemented error
whose message contains the offending key; for the two recognized keys it
raises no error. -/
theorem register_models_unknown_key_raises :
    (∀ (reg : Registry) (key : String),
        Registry.lookup reg key = none →
        key ≠ "quad_multi_encoder_deepset" →
        key ≠ "quad_multi_encoder_histogram" →
        ∃ pre post, (register_models reg key).2 = some (pre ++ key ++ post)) ∧
    (∀ reg : Registry,
        (register_models reg "quad_multi_encoder_deepset").2 = none ∧
        (register_models reg "quad_multi_encoder_histogram").2 = none) := by
  constructor
  · intro reg key h h1 h2
    refine ⟨"encoder ", " not supported!", ?_⟩
    simp only [register_models, Registry.containsKey, h, Option.isSome_none]
    rw [if_pos (by simp), if_neg h1, if_neg h2]
  · intro reg
    constructor
    · by_cases hc : (Registry.lookup reg "quad_multi_encoder_deepset").isSome = true
      · rw [register_models_of_contains _ _ hc]
      · rw [register_models_fresh_deepset reg
          (Option.not_isSome_iff_eq_none.mp (by simpa using hc))]
    · by_cases hc : (Registry.lookup reg "quad_multi_encoder_histogram").isSome = true
      · rw [register_models_of_contains _ _ hc]
      · rw [register_models_fresh_histogram reg
          (Option.not_isSome_iff_eq_none.mp (by simpa using hc))]

theorem register_models_unknown_key_raises_witness :
    (∃ pre post,
        (register_models [] "not_a_real_encoder").2 = some (pre ++ "not_a_real_encoder" ++ post)) ∧
    (register_models [] "quad_multi_encoder_deepset").2 = none ∧
    (register_models [] "quad_multi_encoder_histogram").2 = none :=
  ⟨register_models_unknown_key_raises.1 [] "not_a_real_encoder" (by decide)
      (by decide) (by decide),
    register_models_unknown_key_raises.2 []⟩

/-- C3: if the key is already in the registry, `register_models` is a
no-op that raises nothing; registering a fresh recognized key adds exactly
one entry, and repeating the call is a no-op. -/
theorem register_models_idempotent_noop :
    (∀ (reg : Registry) (key : String),
        (Registry.lookup reg key).isSome = true →
        register_models reg key = (reg, none)) ∧
    (∀ reg : Registry,
        Registry.lookup reg "quad_multi_encoder_deepset" = none →
        Registry.countKey (register_models reg "quad_multi_encoder_deepset").1
          "quad_multi_encoder_deepset" = 1 ∧
        register_models (register_models reg "quad_multi_encoder_deepset").1
          "quad_multi_encoder_deepset"
          = ((register_models reg "quad_multi_encoder_deepset").1, none)) := by
  refine ⟨register_models_of_contains, ?_⟩
  intro reg h
  have hfst : (register_models reg "quad_multi_encoder_deepset").1
      = ("quad_multi_encoder_deepset", EncoderCls.quadMultiMeanEncoder) :: reg := by
    rw [register_models_fresh_deepset reg h]
    rfl
  constructor
  · rw [hfst]
    show (List.filter _ _).length = 1
    rw [List.filter_cons]
    simp only [beq_self_eq_true, if_true]
    rw [List.length_cons]
    have h0 : Registry.countKey reg "quad_multi_encoder_deepset" = 0 :=
      countKey_eq_zero_of_lookup_none reg _ h
    rw [show (List.filter (fun p => p.1 == "quad_multi_encoder_deepset") reg).length
        = Registry.countKey reg "quad_multi_encoder_deepset" from rfl, h0]
  · rw [hfst]
    apply register_models_of_contains
    show (List.lookup _ _).isSome = true
    rw [List.lookup_cons]
    simp

theorem register_models_idempotent_noop_witness :
    register_models [("quad_multi_encoder_deepset", EncoderCls.quadMultiMeanEncoder)]
        "quad_multi_encoder_deepset"
      = ([("quad_multi_encoder_deepset", EncoderCls.quadMultiMeanEncoder)], none) ∧
    Registry.countKey (register_models [] "quad_multi_encoder_deepset").1
        "quad_multi_encoder_deepset" = 1 ∧
    register_models (register_models [] "quad_multi_encoder_deepset").1
        "quad_multi_encoder_deepset"
      = ((register_models [] "quad_multi_encoder_deepset").1, none) :=
  ⟨register_models_idempotent_noop.1 _ "quad_multi_encoder_deepset" (by decide),
    register_models_idempotent_noop.2 [] (by decide)⟩

/-- C4: starting from a registry without the key, `register_models`
registers `QuadMultiMeanEncoder` under `'quad_multi_encoder_deepset'`
(which is also the default argument) and `QuadMultiHistogramEncoder`
under `'quad_multi_encoder_histogram'`, so a lookup afterwards returns
that class. -/
theorem register_models_registers_matching_class :
    (∀ reg : Registry,
        Registry.lookup reg "quad_multi_encoder_deepset" = none →
        Registry.lookup (register_models reg "quad_multi_encoder_deepset").1
            "quad_multi_encoder_deepset" = some EncoderCls.quadMultiMeanEncoder ∧
        register_models reg = register_models reg "quad_multi_encoder_deepset") ∧
    (∀ reg : Registry,
        Registry.lookup reg "quad_multi_encoder_histogram" = none →
        Registry.lookup (register_models reg "quad_multi_encoder_histogram").1
            "quad_multi_encoder_histogram" = some EncoderCls.quadMultiHistogramEncoder) := by
  constructor
  · intro reg h
    refine ⟨?_, rfl⟩
    rw [register_models_fresh_deepset reg h]
    exact Registry.lookup_insert_self reg _ _
  · intro reg h
    rw [register_models_fresh_histogram reg h]
    exact Registry.lookup_insert_self reg _ _

theorem register_models_registers_matching_class_witness :
    (Registry.lookup (register_models [] "quad_multi_encoder_deepset").1
        "quad_multi_encoder_deepset" = some EncoderCls.quadMultiMeanEncoder ∧
      register_models [] = register_models [] "quad_multi_encoder_deepset") ∧
    Registry.lookup (register_models [] "quad_multi_encoder_histogram").1
        "quad_multi_encoder_histogram" = some EncoderCls.quadMultiHistogramEncoder :=
  ⟨register_models_registers_matching_class.1 [] (by decide),
    register_models_registers_matching_class.2 [] (by decide)⟩

/-- C10: a `register_models` call changes at most its own key — every
other key's lookup is untouched — and when it raises the not-implemented
error the registry is exactly as before the call. -/
theorem register_models_frame_atomic :
    (∀ (reg : Registry) (key other : String), other ≠ key →
        Registry.lookup (register_models reg key).1 other = Registry.lookup reg other) ∧
    (∀ (reg : Registry) (key : String),
        ((register_models reg key).2).isSome = true →
        (register_models reg key).1 = reg) := by
  constructor
  · intro reg key other hne
    simp only [register_models]
    split
    · split
      · exact Registry.lookup_insert_other reg key other _ hne
      · split
        · exact Registry.lookup_insert_other reg key other _ hne
        · rfl
    · rfl
  · intro reg key h
    by_cases hc : reg.containsKey key = true
    · rw [register_models_of_contains reg key hc]
    · by_cases h1 : key = "quad_multi_encoder_deepset"
      · subst h1
        exfalso
        rw [register_models_fresh_deepset reg
          (Option.not_isSome_iff_eq_none.mp hc)] at h
        simp at h
      · by_cases h2 : key = "quad_multi_encoder_histogram"
        · subst h2
          exfalso
          rw [register_models_fresh_histogram reg
            (Option.not_isSome_iff_eq_none.mp hc)] at h
          simp at h
        · have herr : register_models reg key
              = (reg, some ("encoder " ++ key ++ " not supported!")) := by
            simp only [register_models]
            rw [if_pos hc, if_neg h1, if_neg h2]
          rw [herr]

theorem register_models_frame_atomic_witness :
    Registry.lookup (register_models [("other", EncoderCls.quadMultiMeanEncoder)]
        "quad_multi_encoder_deepset").1 "other"
      = Registry.lookup [("other", EncoderCls.quadMultiMeanEncoder)] "other" ∧
    (register_models [("other", EncoderCls.quadMultiMeanEncoder)] "not_a_real_encoder").1
      = [("other", EncoderCls.quadMultiMeanEncoder)] :=
  ⟨register_models_frame_atomic.1 _ "quad_multi_encoder_deepset" "other" (by decide),
    register_models_frame_atomic.2 _ "not_a_real_encoder" (by decide)⟩

/-! ### Claim theorems: constructor attributes -/

/-- C7: after construction, `QuadMultiHistogramEncoder` exposes
`encoder_out_size = cfg.hidden_size`, which equals the output width of
its final `feed_forward` layer. -/
theorem histogram_encoder_out_size_eq_hidden (cfg : Cfg) (w : WInit) (hw : w.WF)
    (sd hb hh : ℕ) :
    (mkQuadMultiHistogramEncoder cfg w sd hb hh).encoder_out_size = cfg.hidden_size ∧
    (mkQuadMultiHistogramEncoder cfg w sd hb hh).encoder_out_size
      = (mkQuadMultiHistogramEncoder cfg w sd hb hh).feed_forward.weight.length :=
  ⟨rfl, ((hw 3 _ _).1).symm⟩

theorem histogram_encoder_out_size_eq_hidden_witness :
    (mkQuadMultiHistogramEncoder cfg0 w0).encoder_out_size = cfg0.hidden_size ∧
    (mkQuadMultiHistogramEncoder cfg0 w0).encoder_out_size
      = (mkQuadMultiHistogramEncoder cfg0 w0).feed_forward.weight.length :=
  histogram_encoder_out_size_eq_hidden cfg0 w0 w0_wf 18 64 64

/-- C8: the constructor defaults match the spec's data model: the mean
encoder defaults to a self segment of length 18 and per-neighbor vectors
of length 6; the histogram encoder defaults to a self segment of length
18 and 64 histogram bins. -/
theorem encoder_default_dimensions (cfg : Cfg) (w : WInit) :
    (mkQuadMultiMeanEncoder cfg w).self_obs_dim = 18 ∧
    (mkQuadMultiMeanEncoder cfg w).neighbor_obs_dim = 6 ∧
    (mkQuadMultiHistogramEncoder cfg w).self_obs_dim = 18 ∧
    (mkQuadMultiHistogramEncoder cfg w).histogram_bins = 64 :=
  ⟨rfl, rfl, rfl, rfl⟩
